import Mathlib

/-!
Verification of the promo-pos machine-identity and dual-domain encryption
subsystem. The Go sources `internal/security/encryption.go`,
`internal/security/machine_id*.go` and `internal/database/sqlite.go` are
shallow-embedded below: Go byte slices and strings become `List Nat` byte
lists, fallible functions become `Except GoError`, and the external
cryptographic libraries (AES-GCM, ChaCha20-Poly1305, SHA-256, PBKDF2) are
modelled symbolically, since their code is outside this repository: an
ideal AEAD whose ciphertext records the algorithm, key and nonce and whose
open authenticates all three, and deterministic fixed-width digests.
-/

/-- Go byte slices and Go strings are modelled as lists of byte values;
well-formed data has every entry below 256. -/
abbrev Bytes := List Nat

/-- Every entry of the byte list fits in one byte. -/
def WFBytes (b : Bytes) : Prop := ∀ x ∈ b, x < 256

instance (b : Bytes) : Decidable (WFBytes b) := by
  unfold WFBytes; infer_instance

deriving instance DecidableEq for Except

set_option maxRecDepth 100000

/-! ### Base64 (Go `encoding/base64` StdEncoding)

`ConfigEncryption.Encrypt`, `DatabaseEncryption.Encrypt` and
`ServerKeyToBase64` emit standard base64 with padding; the decoders reject
inputs whose length is not a multiple of four, characters outside the
alphabet, and misplaced padding, as Go's strict `DecodeString` does.
(Go additionally skips CR/LF characters inside the input; that lenience is
not modelled and is not relied on by any claim.) -/

/-- ASCII codes of the standard base64 alphabet A-Z, a-z, 0-9, +, /. -/
def b64Alphabet : Bytes :=
  (List.range 26).map (· + 65) ++ (List.range 26).map (· + 97) ++
    (List.range 10).map (· + 48) ++ [43, 47]

/-- The base64 character for a 6-bit group. -/
def encB64 (n : Nat) : Nat := b64Alphabet.getD n 0

/-- Decode one base64 character; `none` for characters outside the
alphabet (including the padding character 61, ASCII =). -/
def decB64 (c : Nat) : Option Nat := b64Alphabet.findIdx? (· == c)

/-- Base64-encode a byte list, three input bytes per four output
characters, padding the tail with = (ASCII 61). -/
def b64Encode : Bytes → Bytes
  | [] => []
  | [a] => [encB64 (a / 4), encB64 (a % 4 * 16), 61, 61]
  | [a, b] => [encB64 (a / 4), encB64 (a % 4 * 16 + b / 16), encB64 (b % 16 * 4), 61]
  | a :: b :: c :: rest =>
    encB64 (a / 4) :: encB64 (a % 4 * 16 + b / 16) :: encB64 (b % 16 * 4 + c / 64) ::
      encB64 (c % 64) :: b64Encode rest

/-- Base64-decode; `none` on any malformed input (wrong length, bad
character, interior padding). -/
def b64Decode : Bytes → Option Bytes
  | [] => some []
  | c1 :: c2 :: c3 :: c4 :: rest =>
    match decB64 c1, decB64 c2 with
    | some n1, some n2 =>
      if c3 = 61 then
        if c4 = 61 ∧ rest = [] then some [n1 * 4 + n2 / 16] else none
      else
        match decB64 c3 with
        | some n3 =>
          if c4 = 61 then
            if rest = [] then some [n1 * 4 + n2 / 16, n2 % 16 * 16 + n3 / 4] else none
          else
            match decB64 c4 with
            | some n4 =>
              match b64Decode rest with
              | some tail =>
                some ((n1 * 4 + n2 / 16) :: (n2 % 16 * 16 + n3 / 4) :: (n3 % 4 * 64 + n4) :: tail)
              | none => none
            | none => none
        | none => none
    | _, _ => none
  | _ => none

theorem decB64_encB64 : ∀ n, n < 64 → decB64 (encB64 n) = some n := by decide

theorem encB64_ne_61 : ∀ n, n < 64 → encB64 n ≠ 61 := by decide

/-- Decoding inverts encoding on well-formed byte lists. -/
theorem b64Decode_b64Encode (l : Bytes) (h : WFBytes l) : b64Decode (b64Encode l) = some l := by
  induction l using b64Encode.induct with
  | case1 => rfl
  | case2 a =>
    have ha : a < 256 := h a (by simp)
    simp only [b64Encode, b64Decode, decB64_encB64 (a / 4) (by omega),
      decB64_encB64 (a % 4 * 16) (by omega)]
    norm_num
    omega
  | case3 a b =>
    have ha : a < 256 := h a (by simp)
    have hb : b < 256 := h b (by simp)
    simp only [b64Encode, b64Decode, decB64_encB64 (a / 4) (by omega),
      decB64_encB64 (a % 4 * 16 + b / 16) (by omega),
      decB64_encB64 (b % 16 * 4) (by omega),
      if_neg (encB64_ne_61 (b % 16 * 4) (by omega))]
    norm_num
    constructor <;> omega
  | case4 a b c rest ih =>
    have ha : a < 256 := h a (by simp)
    have hb : b < 256 := h b (by simp)
    have hc : c < 256 := h c (by simp)
    have hrest : WFBytes rest := fun x hx => h x (by simp [hx])
    simp only [b64Encode, b64Decode, decB64_encB64 (a / 4) (by omega),
      decB64_encB64 (a % 4 * 16 + b / 16) (by omega),
      decB64_encB64 (b % 16 * 4 + c / 64) (by omega),
      decB64_encB64 (c % 64) (by omega),
      if_neg (encB64_ne_61 (b % 16 * 4 + c / 64) (by omega)),
      if_neg (encB64_ne_61 (c % 64) (by omega)), ih hrest]
    norm_num
    refine ⟨by omega, by omega, by omega⟩

/-! ### Symbolic AEAD model

The Go code uses `crypto/aes` + `crypto/cipher.NewGCM` for the config
domain and `golang.org/x/crypto/chacha20poly1305` for the database
domain, both through Go's `cipher.AEAD` interface (12-byte nonce,
`Seal`/`Open`). Those libraries are outside this repository, so the AEAD
is modelled symbolically in the Dolev-Yao style: `aeadSeal` produces a
ciphertext that records which algorithm, key and nonce sealed which
plaintext, and `aeadOpen` succeeds exactly when all three match — the
guarantee an authenticated cipher provides (up to negligible forgery
probability). The two domains use distinct algorithm tags, so a
cross-domain open can never succeed, mirroring both the key mismatch and
the structural AEAD mismatch of the real code. -/

/-- The two AEAD families used by the two encryption domains. -/
inductive AEADAlg
  | aesgcm
  | chacha20poly1305
  deriving DecidableEq

/-- Distinct one-byte tags for the two algorithms. -/
def AEADAlg.tag : AEADAlg → Nat
  | .aesgcm => 1
  | .chacha20poly1305 => 2

/-- Symbolic AEAD seal: the ciphertext records algorithm, key, nonce and
plaintext (`cipher.AEAD.Seal` with empty additional data). -/
def aeadSeal (alg : AEADAlg) (key nonce pt : Bytes) : Bytes :=
  alg.tag :: key.length :: (key ++ nonce.length :: (nonce ++ pt))

/-- Symbolic AEAD open: authenticates algorithm, key and nonce and
returns the sealed plaintext, `none` on any mismatch
(`cipher.AEAD.Open` returning an authentication error). -/
def aeadOpen (alg : AEADAlg) (key nonce ct : Bytes) : Option Bytes :=
  match ct with
  | a :: kl :: rest =>
    if a = alg.tag ∧ kl = key.length ∧ rest.take key.length = key then
      match rest.drop key.length with
      | nl :: rest2 =>
        if nl = nonce.length ∧ rest2.take nonce.length = nonce then
          some (rest2.drop nonce.length)
        else none
      | [] => none
    else none
  | _ => none

theorem take_length_append (l1 l2 : List Nat) : (l1 ++ l2).take l1.length = l1 := by
  induction l1 with
  | nil => rfl
  | cons a t ih => simp [ih]

theorem drop_length_append (l1 l2 : List Nat) : (l1 ++ l2).drop l1.length = l2 := by
  induction l1 with
  | nil => rfl
  | cons a t ih => simp [ih]

/-- Opening with the sealing algorithm, key and nonce recovers the
plaintext. -/
theorem aeadOpen_aeadSeal (alg : AEADAlg) (key nonce pt : Bytes) :
    aeadOpen alg key nonce (aeadSeal alg key nonce pt) = some pt := by
  simp [aeadSeal, aeadOpen, take_length_append, drop_length_append]

/-- Opening under a different algorithm always fails, whatever the keys
and nonces involved. -/
theorem aeadOpen_alg_ne (alg alg2 : AEADAlg) (key nonce pt key2 nonce2 : Bytes)
    (hne : alg ≠ alg2) :
    aeadOpen alg2 key2 nonce2 (aeadSeal alg key nonce pt) = none := by
  have htag : alg.tag ≠ alg2.tag := by
    cases alg <;> cases alg2 <;> simp_all [AEADAlg.tag]
  rw [aeadSeal, aeadOpen]
  simp [htag]

/-- Opening under a different key of the same length always fails. -/
theorem aeadOpen_key_ne (alg : AEADAlg) (key nonce pt key2 nonce2 : Bytes)
    (hlen : key2.length = key.length) (hne : key2 ≠ key) :
    aeadOpen alg key2 nonce2 (aeadSeal alg key nonce pt) = none := by
  have htake : (key ++ nonce.length :: (nonce ++ pt)).take key2.length = key := by
    rw [hlen, take_length_append]
  rw [aeadSeal, aeadOpen]
  rw [if_neg]
  intro hcond
  exact hne (htake.symm.trans hcond.2.2).symm

/-- All bytes of a symbolic envelope are below 256 when the key, nonce
and plaintext are well formed and of the sizes the code produces. -/
theorem wf_aeadSeal (alg : AEADAlg) (key nonce pt : Bytes)
    (hk : WFBytes key) (hkl : key.length < 256) (hn : WFBytes nonce)
    (hnl : nonce.length < 256) (hp : WFBytes pt) :
    WFBytes (aeadSeal alg key nonce pt) := by
  intro x hx
  rw [aeadSeal] at hx
  simp only [List.mem_cons, List.mem_append] at hx
  rcases hx with h | h | h | h | h | h
  · cases alg <;> simp only [AEADAlg.tag] at h <;> omega
  · omega
  · exact hk x h
  · omega
  · exact hn x h
  · exact hp x h

/-! ### Hash and key-derivation models

`crypto/sha256`, `encoding/hex` and `golang.org/x/crypto/pbkdf2` with
`sha3.New256` are external libraries. The development relies only on the
facts that SHA-256 is a deterministic 32-byte digest and that PBKDF2 is a
deterministic function of (password, salt, iteration count, key length,
hash family) whose output has the requested length; the models below are
deterministic stand-ins with exactly those properties. -/

/-- Symbolic model of the external crypto/sha256 digest: deterministic,
32 bytes, each below 256. -/
def sha256 (data : Bytes) : Bytes :=
  (List.range 32).map fun i => (data.foldl (fun a b => a * 131 + b + 1) i) % 256

theorem sha256_length (data : Bytes) : (sha256 data).length = 32 := by
  simp [sha256]

theorem wf_sha256 (data : Bytes) : WFBytes (sha256 data) := by
  intro x hx
  simp only [sha256, List.mem_map] at hx
  obtain ⟨i, _, rfl⟩ := hx
  exact Nat.mod_lt _ (by omega)

/-- The hash families that can be handed to the PBKDF2 model; the config
cipher uses sha3.New256. -/
inductive HashAlg
  | sha3_256
  deriving DecidableEq

/-- Symbolic model of the external golang.org/x/crypto/pbkdf2 Key
function: deterministic in password, salt, iteration count, requested
key length and hash family, producing keyLen bytes below 256. -/
def pbkdf2Key (password salt : Bytes) (iterations keyLen : Nat) (_hashAlg : HashAlg) : Bytes :=
  (List.range keyLen).map fun i =>
    (password.foldl (fun a b => a * 131 + b + 1) 0 * 31 +
      salt.foldl (fun a b => a * 131 + b + 1) 0 * 7 + iterations + i) % 256

theorem pbkdf2Key_length (password salt : Bytes) (iterations keyLen : Nat) (h : HashAlg) :
    (pbkdf2Key password salt iterations keyLen h).length = keyLen := by
  simp [pbkdf2Key]

theorem wf_pbkdf2Key (password salt : Bytes) (iterations keyLen : Nat) (h : HashAlg) :
    WFBytes (pbkdf2Key password salt iterations keyLen h) := by
  intro x hx
  simp only [pbkdf2Key, List.mem_map] at hx
  obtain ⟨i, _, rfl⟩ := hx
  exact Nat.mod_lt _ (by omega)

/-- Lowercase hexadecimal digit for a value below 16 (encoding/hex). -/
def hexDigit (n : Nat) : Nat := if n < 10 then 48 + n else 87 + n

/-- encoding/hex EncodeToString: two lowercase hex digits per byte. -/
def hexEncode : Bytes → Bytes
  | [] => []
  | b :: rest => hexDigit (b / 16) :: hexDigit (b % 16) :: hexEncode rest

/-- The byte is the ASCII code of a lowercase hexadecimal digit. -/
def IsHexByte (c : Nat) : Prop := (48 ≤ c ∧ c ≤ 57) ∨ (97 ≤ c ∧ c ≤ 102)

instance (c : Nat) : Decidable (IsHexByte c) := by
  unfold IsHexByte; infer_instance

/-- Every byte of the list is a lowercase hexadecimal digit. -/
def AllHexBytes (b : Bytes) : Prop := ∀ c ∈ b, IsHexByte c

instance (b : Bytes) : Decidable (AllHexBytes b) := by
  unfold AllHexBytes; infer_instance

theorem hexEncode_length (l : Bytes) : (hexEncode l).length = 2 * l.length := by
  induction l with
  | nil => rfl
  | cons b rest ih => simp [hexEncode, ih]; omega

theorem hexEncode_allHex (l : Bytes) (h : WFBytes l) : AllHexBytes (hexEncode l) := by
  induction l with
  | nil => intro c hc; simp [hexEncode] at hc
  | cons b rest ih =>
    intro c hc
    have hb : b < 256 := h b (by simp)
    simp only [hexEncode, List.mem_cons] at hc
    rcases hc with rfl | rfl | hc
    · unfold IsHexByte hexDigit; split <;> omega
    · unfold IsHexByte hexDigit; split <;> omega
    · exact ih (fun x hx => h x (by simp [hx])) c hc

/-! ### internal/security/encryption.go -/

/-- PBKDF2 iterations for key derivation (encryption.go line 19). -/
def pbkdf2Iterations : Nat := 10000

/-- AES-256 requires a 32 byte key (encryption.go line 22). -/
def aes256KeySize : Nat := 32

/-- ChaCha20-Poly1305 requires a 32 byte key (encryption.go line 25). -/
def chacha20KeySize : Nat := 32

/-- Both cipher.AEAD instances use the standard 12-byte nonce. -/
def aeadNonceSize : Nat := 12

/-- The hard-coded application secret of encryption.go line 30, as its
UTF-8 bytes. -/
def hardcodedEncryptionKey : Bytes :=
  "YourSuperSecretHardcodedKeyHere-ChangeInProduction!".toList.map Char.toNat

/-- The distinct error values the embedded Go functions can return.
Distinct constructors model Go errors that errors.Is / string inspection
can tell apart; constructors carrying a payload model wrapped errors. -/
inductive GoError
  | emptyMachineID
  | failedToCreateCipher
  | failedToDecodeBase64
  | invalidCiphertext
  | failedToDecrypt
  | invalidKey
  | invalidServerKeyLength (got : Nat)
  | failedToDecodeServerKey
  | generateMachineIDFailed
  | settingNotFound (key : Bytes)
  | failedToEncryptSetting (inner : GoError)
  | failedToDecryptSetting (inner : GoError)
  deriving DecidableEq

/-- TYPE 1 encryption handler (config domain): AES-256-GCM keyed from
the hard-coded secret with the machine ID as salt. -/
structure ConfigEncryption where
  machineID : Bytes
  key : Bytes
  deriving DecidableEq

/-- NewConfigEncryption: rejects an empty machine ID, then derives the
key with PBKDF2(hardcodedEncryptionKey, machineID, 10000 iterations,
32 bytes, SHA3-256). -/
def NewConfigEncryption (machineID : Bytes) : Except GoError ConfigEncryption :=
  if machineID = [] then .error .emptyMachineID
  else
    .ok { machineID := machineID
          key := pbkdf2Key hardcodedEncryptionKey machineID pbkdf2Iterations aes256KeySize
            .sha3_256 }

/-- The 12 fresh nonce bytes io.ReadFull draws from crypto/rand,
modelled as a prefix of an explicit random stream. -/
def randBytes (rand : Nat → Nat) (n : Nat) : Bytes :=
  (List.range n).map fun i => rand i % 256

theorem randBytes_length (rand : Nat → Nat) (n : Nat) : (randBytes rand n).length = n := by
  simp [randBytes]

theorem wf_randBytes (rand : Nat → Nat) (n : Nat) : WFBytes (randBytes rand n) := by
  intro x hx
  simp only [randBytes, List.mem_map] at hx
  obtain ⟨i, _, rfl⟩ := hx
  exact Nat.mod_lt _ (by omega)

/-- ConfigEncryption.Encrypt: AES-256-GCM seal with a fresh 12-byte
random nonce prepended, base64 encoded. aes.NewCipher fails unless the
key is 32 bytes. -/
def ConfigEncryption.Encrypt (ce : ConfigEncryption) (plaintext : Bytes) (rand : Nat → Nat) :
    Except GoError Bytes :=
  if ce.key.length ≠ aes256KeySize then .error .failedToCreateCipher
  else
    let nonce := randBytes rand aeadNonceSize
    .ok (b64Encode (nonce ++ aeadSeal .aesgcm ce.key nonce plaintext))

/-- ConfigEncryption.Decrypt: base64 decode, create the AES-GCM cipher,
reject inputs shorter than the nonce, split nonce from ciphertext, open.
Each failure keeps the distinct error the Go code returns. -/
def ConfigEncryption.Decrypt (ce : ConfigEncryption) (ciphertextB64 : Bytes) :
    Except GoError Bytes :=
  match b64Decode ciphertextB64 with
  | none => .error .failedToDecodeBase64
  | some ciphertext =>
    if ce.key.length ≠ aes256KeySize then .error .failedToCreateCipher
    else if ciphertext.length < aeadNonceSize then .error .invalidCiphertext
    else
      match aeadOpen .aesgcm ce.key (ciphertext.take aeadNonceSize)
          (ciphertext.drop aeadNonceSize) with
      | some plaintext => .ok plaintext
      | none => .error .failedToDecrypt

/-- TYPE 2 encryption handler (database domain): ChaCha20-Poly1305 keyed
directly from the 32-byte server key. -/
structure DatabaseEncryption where
  serverKey : Bytes
  deriving DecidableEq

/-- NewDatabaseEncryption: the server key must be exactly 32 bytes. -/
def NewDatabaseEncryption (serverKey : Bytes) : Except GoError DatabaseEncryption :=
  if serverKey.length ≠ chacha20KeySize then .error .invalidKey
  else .ok { serverKey := serverKey }

/-- DatabaseEncryption.Encrypt: ChaCha20-Poly1305 seal with a fresh
12-byte random nonce prepended, base64 encoded.
chacha20poly1305.New fails unless the key is 32 bytes. -/
def DatabaseEncryption.Encrypt (de : DatabaseEncryption) (plaintext : Bytes)
    (rand : Nat → Nat) : Except GoError Bytes :=
  if de.serverKey.length ≠ chacha20KeySize then .error .failedToCreateCipher
  else
    let nonce := randBytes rand aeadNonceSize
    .ok (b64Encode (nonce ++ aeadSeal .chacha20poly1305 de.serverKey nonce plaintext))

/-- DatabaseEncryption.Decrypt: mirror of ConfigEncryption.Decrypt with
the ChaCha20-Poly1305 AEAD. -/
def DatabaseEncryption.Decrypt (de : DatabaseEncryption) (ciphertextB64 : Bytes) :
    Except GoError Bytes :=
  match b64Decode ciphertextB64 with
  | none => .error .failedToDecodeBase64
  | some ciphertext =>
    if de.serverKey.length ≠ chacha20KeySize then .error .failedToCreateCipher
    else if ciphertext.length < aeadNonceSize then .error .invalidCiphertext
    else
      match aeadOpen .chacha20poly1305 de.serverKey (ciphertext.take aeadNonceSize)
          (ciphertext.drop aeadNonceSize) with
      | some plaintext => .ok plaintext
      | none => .error .failedToDecrypt

/-- ServerKeyToBase64: base64 transport encoding of a server key. -/
def ServerKeyToBase64 (key : Bytes) : Bytes := b64Encode key

/-- ServerKeyFromBase64: strict base64 decode followed by the exact
32-byte length check. -/
def ServerKeyFromBase64 (keyB64 : Bytes) : Except GoError Bytes :=
  match b64Decode keyB64 with
  | none => .error .failedToDecodeServerKey
  | some key =>
    if key.length ≠ chacha20KeySize then .error (.invalidServerKeyLength key.length)
    else .ok key

theorem wf_append (l1 l2 : Bytes) (h1 : WFBytes l1) (h2 : WFBytes l2) : WFBytes (l1 ++ l2) := by
  intro x hx
  rcases List.mem_append.mp hx with h | h
  · exact h1 x h
  · exact h2 x h

/-- Decrypting a freshly sealed config envelope: decode, split and open
all succeed and return the original plaintext. -/
theorem config_decrypt_encrypt (ce : ConfigEncryption) (pt : Bytes)
    (rand : Nat → Nat) (hk : ce.key.length = 32) (hwk : WFBytes ce.key) (hp : WFBytes pt)
    (ct : Bytes) (henc : ce.Encrypt pt rand = .ok ct) :
    ce.Decrypt ct = .ok pt := by
  set nonce := randBytes rand aeadNonceSize with hnonce
  have hnl : nonce.length = 12 := randBytes_length rand aeadNonceSize
  have hwn : WFBytes nonce := wf_randBytes rand aeadNonceSize
  have hwfseal : WFBytes (aeadSeal .aesgcm ce.key nonce pt) :=
    wf_aeadSeal _ _ _ _ hwk (by omega) hwn (by omega) hp
  have hct : ct = b64Encode (nonce ++ aeadSeal .aesgcm ce.key nonce pt) := by
    rw [ConfigEncryption.Encrypt] at henc
    rw [if_neg (by rw [hk]; simp [aes256KeySize])] at henc
    exact (Except.ok.injEq _ _ ▸ henc).symm
  have hdec : b64Decode ct = some (nonce ++ aeadSeal .aesgcm ce.key nonce pt) := by
    rw [hct]
    exact b64Decode_b64Encode _ (wf_append _ _ hwn hwfseal)
  simp only [ConfigEncryption.Decrypt, hdec]
  rw [if_neg (by rw [hk]; simp [aes256KeySize])]
  have hlen : ¬ (nonce ++ aeadSeal .aesgcm ce.key nonce pt).length < aeadNonceSize := by
    rw [List.length_append, hnl]
    simp [aeadNonceSize]
  rw [if_neg hlen]
  have htake : (nonce ++ aeadSeal .aesgcm ce.key nonce pt).take aeadNonceSize = nonce := by
    have : aeadNonceSize = nonce.length := by rw [hnl]; rfl
    rw [this, take_length_append]
  have hdrop : (nonce ++ aeadSeal .aesgcm ce.key nonce pt).drop aeadNonceSize =
      aeadSeal .aesgcm ce.key nonce pt := by
    have : aeadNonceSize = nonce.length := by rw [hnl]; rfl
    rw [this, drop_length_append]
  rw [htake, hdrop, aeadOpen_aeadSeal]

/-- Decrypting a freshly sealed database envelope returns the original
plaintext. -/
theorem database_decrypt_encrypt (de : DatabaseEncryption) (pt : Bytes)
    (rand : Nat → Nat) (hk : de.serverKey.length = 32) (hwk : WFBytes de.serverKey)
    (hp : WFBytes pt) (ct : Bytes) (henc : de.Encrypt pt rand = .ok ct) :
    de.Decrypt ct = .ok pt := by
  set nonce := randBytes rand aeadNonceSize with hnonce
  have hnl : nonce.length = 12 := randBytes_length rand aeadNonceSize
  have hwn : WFBytes nonce := wf_randBytes rand aeadNonceSize
  have hwfseal : WFBytes (aeadSeal .chacha20poly1305 de.serverKey nonce pt) :=
    wf_aeadSeal _ _ _ _ hwk (by omega) hwn (by omega) hp
  have hct : ct = b64Encode (nonce ++ aeadSeal .chacha20poly1305 de.serverKey nonce pt) := by
    rw [DatabaseEncryption.Encrypt] at henc
    rw [if_neg (by rw [hk]; simp [chacha20KeySize])] at henc
    exact (Except.ok.injEq _ _ ▸ henc).symm
  have hdec : b64Decode ct = some (nonce ++ aeadSeal .chacha20poly1305 de.serverKey nonce pt) := by
    rw [hct]
    exact b64Decode_b64Encode _ (wf_append _ _ hwn hwfseal)
  simp only [DatabaseEncryption.Decrypt, hdec]
  rw [if_neg (by rw [hk]; simp [chacha20KeySize])]
  have hlen : ¬ (nonce ++ aeadSeal .chacha20poly1305 de.serverKey nonce pt).length
      < aeadNonceSize := by
    rw [List.length_append, hnl]
    simp [aeadNonceSize]
  rw [if_neg hlen]
  have htake : (nonce ++ aeadSeal .chacha20poly1305 de.serverKey nonce pt).take aeadNonceSize
      = nonce := by
    have : aeadNonceSize = nonce.length := by rw [hnl]; rfl
    rw [this, take_length_append]
  have hdrop : (nonce ++ aeadSeal .chacha20poly1305 de.serverKey nonce pt).drop aeadNonceSize
      = aeadSeal .chacha20poly1305 de.serverKey nonce pt := by
    have : aeadNonceSize = nonce.length := by rw [hnl]; rfl
    rw [this, drop_length_append]
  rw [htake, hdrop, aeadOpen_aeadSeal]

/-- Opening a database-domain envelope with the config cipher reaches
the AEAD open and fails there. -/
theorem config_decrypt_cross (ce : ConfigEncryption) (de : DatabaseEncryption)
    (pt : Bytes) (rand : Nat → Nat) (hk : ce.key.length = 32)
    (hdk : de.serverKey.length = 32) (hwk : WFBytes de.serverKey) (hp : WFBytes pt)
    (ct : Bytes) (henc : de.Encrypt pt rand = .ok ct) :
    ce.Decrypt ct = .error .failedToDecrypt := by
  set nonce := randBytes rand aeadNonceSize with hnonce
  have hnl : nonce.length = 12 := randBytes_length rand aeadNonceSize
  have hwn : WFBytes nonce := wf_randBytes rand aeadNonceSize
  have hwfseal : WFBytes (aeadSeal .chacha20poly1305 de.serverKey nonce pt) :=
    wf_aeadSeal _ _ _ _ hwk (by omega) hwn (by omega) hp
  have hct : ct = b64Encode (nonce ++ aeadSeal .chacha20poly1305 de.serverKey nonce pt) := by
    rw [DatabaseEncryption.Encrypt] at henc
    rw [if_neg (by rw [hdk]; simp [chacha20KeySize])] at henc
    exact (Except.ok.injEq _ _ ▸ henc).symm
  have hdec : b64Decode ct = some (nonce ++ aeadSeal .chacha20poly1305 de.serverKey nonce pt) := by
    rw [hct]
    exact b64Decode_b64Encode _ (wf_append _ _ hwn hwfseal)
  simp only [ConfigEncryption.Decrypt, hdec]
  rw [if_neg (by rw [hk]; simp [aes256KeySize])]
  have hlen : ¬ (nonce ++ aeadSeal .chacha20poly1305 de.serverKey nonce pt).length
      < aeadNonceSize := by
    rw [List.length_append, hnl]
    simp [aeadNonceSize]
  rw [if_neg hlen]
  have hdrop : (nonce ++ aeadSeal .chacha20poly1305 de.serverKey nonce pt).drop aeadNonceSize
      = aeadSeal .chacha20poly1305 de.serverKey nonce pt := by
    have : aeadNonceSize = nonce.length := by rw [hnl]; rfl
    rw [this, drop_length_append]
  rw [hdrop, aeadOpen_alg_ne .chacha20poly1305 .aesgcm _ _ _ _ _ (by simp)]

/-- Opening a config-domain envelope with the database cipher reaches
the AEAD open and fails there. -/
theorem database_decrypt_cross (ce : ConfigEncryption) (de : DatabaseEncryption)
    (pt : Bytes) (rand : Nat → Nat) (hk : ce.key.length = 32) (hwk : WFBytes ce.key)
    (hdk : de.serverKey.length = 32) (hp : WFBytes pt)
    (ct : Bytes) (henc : ce.Encrypt pt rand = .ok ct) :
    de.Decrypt ct = .error .failedToDecrypt := by
  set nonce := randBytes rand aeadNonceSize with hnonce
  have hnl : nonce.length = 12 := randBytes_length rand aeadNonceSize
  have hwn : WFBytes nonce := wf_randBytes rand aeadNonceSize
  have hwfseal : WFBytes (aeadSeal .aesgcm ce.key nonce pt) :=
    wf_aeadSeal _ _ _ _ hwk (by omega) hwn (by omega) hp
  have hct : ct = b64Encode (nonce ++ aeadSeal .aesgcm ce.key nonce pt) := by
    rw [ConfigEncryption.Encrypt] at henc
    rw [if_neg (by rw [hk]; simp [aes256KeySize])] at henc
    exact (Except.ok.injEq _ _ ▸ henc).symm
  have hdec : b64Decode ct = some (nonce ++ aeadSeal .aesgcm ce.key nonce pt) := by
    rw [hct]
    exact b64Decode_b64Encode _ (wf_append _ _ hwn hwfseal)
  simp only [DatabaseEncryption.Decrypt, hdec]
  rw [if_neg (by rw [hdk]; simp [chacha20KeySize])]
  have hlen : ¬ (nonce ++ aeadSeal .aesgcm ce.key nonce pt).length < aeadNonceSize := by
    rw [List.length_append, hnl]
    simp [aeadNonceSize]
  rw [if_neg hlen]
  have hdrop : (nonce ++ aeadSeal .aesgcm ce.key nonce pt).drop aeadNonceSize
      = aeadSeal .aesgcm ce.key nonce pt := by
    have : aeadNonceSize = nonce.length := by rw [hnl]; rfl
    rw [this, drop_length_append]
  rw [hdrop, aeadOpen_alg_ne .aesgcm .chacha20poly1305 _ _ _ _ _ (by simp)]

/-- The key NewConfigEncryption derives is 32 well-formed bytes. -/
theorem NewConfigEncryption_key (machineID : Bytes) (ce : ConfigEncryption)
    (h : NewConfigEncryption machineID = .ok ce) :
    ce.key.length = 32 ∧ WFBytes ce.key := by
  rw [NewConfigEncryption] at h
  by_cases hm : machineID = []
  · rw [if_pos hm] at h
    exact absurd h (by simp)
  · rw [if_neg hm] at h
    have : ce = { machineID := machineID
                  key := pbkdf2Key hardcodedEncryptionKey machineID pbkdf2Iterations
                    aes256KeySize .sha3_256 } := by
      exact (Except.ok.injEq _ _ ▸ h).symm
    rw [this]
    exact ⟨pbkdf2Key_length hardcodedEncryptionKey machineID pbkdf2Iterations aes256KeySize
      HashAlg.sha3_256,
      wf_pbkdf2Key hardcodedEncryptionKey machineID pbkdf2Iterations aes256KeySize
        HashAlg.sha3_256⟩

/-- The key NewDatabaseEncryption accepts is exactly 32 bytes. -/
theorem NewDatabaseEncryption_key (serverKey : Bytes) (de : DatabaseEncryption)
    (h : NewDatabaseEncryption serverKey = .ok de) :
    de.serverKey = serverKey ∧ de.serverKey.length = 32 := by
  rw [NewDatabaseEncryption] at h
  by_cases hl : serverKey.length ≠ chacha20KeySize
  · rw [if_pos hl] at h
    exact absurd h (by simp)
  · rw [if_neg hl] at h
    have : de = { serverKey := serverKey } := (Except.ok.injEq _ _ ▸ h).symm
    rw [this]
    refine ⟨rfl, ?_⟩
    simpa [chacha20KeySize] using hl

/-! ### internal/security machine identity (GetMachineID)

The platform signal sources (registry product id, /proc/cpuinfo, MAC
address, hostname) are OS calls; a host is modelled by the signals its
sources yield, `none` standing for a source whose call errors. The
persisted machine-id store (Windows registry value or
/var/lib/posservice/machine_id file, post TrimSpace) and the process-wide
in-memory cache form the mutable state. -/

/-- The signals one host offers: platformSpecificID output (none when it
errors), primary MAC address, hostname. -/
structure Host where
  platformData : Option (List Bytes)
  macAddr : Option Bytes
  hostname : Option Bytes

/-- The data slice generateMachineID collects: each available signal
appended in order, unavailable ones skipped. -/
def hostSignals (h : Host) : List Bytes :=
  h.platformData.getD [] ++ (h.macAddr.map ([·])).getD [] ++ (h.hostname.map ([·])).getD []

/-- The combined buffer: every signal followed by a | separator. -/
def combineSignals (data : List Bytes) : Bytes :=
  data.foldl (fun acc d => acc ++ d ++ [124]) []

/-- generateMachineID: fail when no signal is available, else
hex-encode the SHA-256 digest of the combined buffer. -/
def generateMachineID (h : Host) : Except GoError Bytes :=
  let data := hostSignals h
  if data = [] then .error .generateMachineIDFailed
  else .ok (hexEncode (sha256 (combineSignals data)))

/-- The process cache (cachedMachineID, empty = unset) and the persisted
store (none = absent or unreadable). -/
structure MachState where
  cachedMachineID : Bytes
  store : Option Bytes
  deriving DecidableEq

/-- GetMachineID when both cache and store miss: derive a fresh id and
persist it; a failed persist (saveOk = false) is logged, not fatal. -/
def getMachineIDFresh (h : Host) (saveOk : Bool) (s : MachState) :
    Except GoError Bytes × MachState :=
  match generateMachineID h with
  | .error _ => (.error .generateMachineIDFailed, s)
  | .ok mid =>
    (.ok mid, { cachedMachineID := mid, store := if saveOk then some mid else s.store })

/-- GetMachineID: return the in-memory cache when set; otherwise read
the persisted store and cache a non-empty value; otherwise derive,
persist and cache a fresh id. -/
def GetMachineID (h : Host) (saveOk : Bool) (s : MachState) :
    Except GoError Bytes × MachState :=
  if s.cachedMachineID ≠ [] then (.ok s.cachedMachineID, s)
  else
    match s.store with
    | some mid =>
      if mid ≠ [] then (.ok mid, { s with cachedMachineID := mid })
      else getMachineIDFresh h saveOk s
    | none => getMachineIDFresh h saveOk s

/-- The one fingerprint a host can derive. -/
def canonicalID (h : Host) : Bytes := hexEncode (sha256 (combineSignals (hostSignals h)))

/-- States reachable on one unchanged host: the fresh process state,
any number of GetMachineID calls, and process restarts (which clear the
in-memory cache but keep the persisted store). -/
inductive Reachable (h : Host) : MachState → Prop
  | init : Reachable h ⟨[], none⟩
  | call (s st2 : MachState) (r : Except GoError Bytes) (saveOk : Bool) :
      Reachable h s → GetMachineID h saveOk s = (r, st2) → Reachable h st2
  | restart (s : MachState) : Reachable h s → Reachable h ⟨[], s.store⟩

theorem canonicalID_length (h : Host) : (canonicalID h).length = 64 := by
  rw [canonicalID, hexEncode_length, sha256_length]

theorem canonicalID_ne_nil (h : Host) : canonicalID h ≠ [] := by
  intro hc
  have := canonicalID_length h
  rw [hc] at this
  simp at this

theorem canonicalID_allHex (h : Host) : AllHexBytes (canonicalID h) :=
  hexEncode_allHex _ (wf_sha256 _)

/-- A successful generateMachineID yields the canonical fingerprint. -/
theorem generateMachineID_ok (h : Host) (mid : Bytes)
    (hg : generateMachineID h = .ok mid) : mid = canonicalID h := by
  simp only [generateMachineID] at hg
  split at hg
  · exact absurd hg (by simp)
  · simp only [Except.ok.injEq] at hg
    rw [← hg, canonicalID]

/-- Whatever path getMachineIDFresh takes, the resulting state only ever
holds the canonical fingerprint. -/
theorem getMachineIDFresh_inv (h : Host) (saveOk : Bool) (s st2 : MachState)
    (r : Except GoError Bytes) (heq : getMachineIDFresh h saveOk s = (r, st2))
    (ihc : s.cachedMachineID = [] ∨ s.cachedMachineID = canonicalID h)
    (ihs : s.store = none ∨ s.store = some (canonicalID h)) :
    (st2.cachedMachineID = [] ∨ st2.cachedMachineID = canonicalID h) ∧
      (st2.store = none ∨ st2.store = some (canonicalID h)) := by
  unfold getMachineIDFresh at heq
  split at heq
  · injection heq with h1 h2
    subst h2
    exact ⟨ihc, ihs⟩
  · next mid hg =>
    have hmid := generateMachineID_ok h mid hg
    injection heq with h1 h2
    subst h2
    subst hmid
    refine ⟨Or.inr rfl, ?_⟩
    cases saveOk
    · simpa using ihs
    · simp

/-- On an unchanged host, every reachable cache or store entry is the
canonical fingerprint. -/
theorem reachable_inv (h : Host) (s : MachState) (hr : Reachable h s) :
    (s.cachedMachineID = [] ∨ s.cachedMachineID = canonicalID h) ∧
      (s.store = none ∨ s.store = some (canonicalID h)) := by
  induction hr with
  | init => exact ⟨Or.inl rfl, Or.inl rfl⟩
  | call s st2 r saveOk _ heq ih =>
    unfold GetMachineID at heq
    split at heq
    · injection heq with h1 h2
      subst h2
      exact ih
    · next hc =>
      split at heq
      · next mid hs =>
        split at heq
        · next hm =>
          injection heq with h1 h2
          subst h2
          have h2 := ih.2
          rw [hs] at h2
          rcases h2 with h2 | h2
          · exact absurd h2 (by simp)
          · simp only [Option.some.injEq] at h2
            subst h2
            exact ⟨Or.inr rfl, ih.2⟩
        · exact getMachineIDFresh_inv h saveOk s st2 r heq ih.1 ih.2
      · exact getMachineIDFresh_inv h saveOk s st2 r heq ih.1 ih.2
  | restart s _ ih => exact ⟨Or.inl rfl, ih.2⟩

/-- A successful GetMachineID on a reachable state returns the canonical
fingerprint and leaves it cached in the new state. -/
theorem getMachineID_ok (h : Host) (s st2 : MachState) (saveOk : Bool) (mid : Bytes)
    (hr : Reachable h s) (heq : GetMachineID h saveOk s = (.ok mid, st2)) :
    mid = canonicalID h ∧ st2.cachedMachineID = mid := by
  have ih := reachable_inv h s hr
  have inv2 := reachable_inv h st2 (Reachable.call s st2 (.ok mid) saveOk hr heq)
  unfold GetMachineID at heq
  split at heq
  · next hc =>
    injection heq with h1 h2
    subst h2
    injection h1 with h1
    rcases ih.1 with h3 | h3
    · exact absurd h3 hc
    · exact ⟨by rw [← h1, h3], h1⟩
  · next hc =>
    have hcache : s.cachedMachineID = [] := by
      by_contra hx
      exact hc hx
    split at heq
    · next mid2 hs =>
      split at heq
      · next hm =>
        injection heq with h1 h2
        subst h2
        injection h1 with h1
        have h2 := ih.2
        rw [hs] at h2
        rcases h2 with h2 | h2
        · exact absurd h2 (by simp)
        · simp only [Option.some.injEq] at h2
          subst h2
          exact ⟨h1.symm, h1⟩
      · unfold getMachineIDFresh at heq
        split at heq
        · exact absurd (congrArg Prod.fst heq) (by simp)
        · next mid3 hg =>
          have hmid := generateMachineID_ok h mid3 hg
          injection heq with h1 h2
          subst h2
          injection h1 with h1
          subst h1
          exact ⟨hmid, by rw [hmid]⟩
    · unfold getMachineIDFresh at heq
      split at heq
      · exact absurd (congrArg Prod.fst heq) (by simp)
      · next mid3 hg =>
        have hmid := generateMachineID_ok h mid3 hg
        injection heq with h1 h2
        subst h2
        injection h1 with h1
        subst h1
        exact ⟨hmid, by rw [hmid]⟩

/-- Immediately after a successful call, a second call hits the
in-memory cache and returns the same fingerprint with unchanged state. -/
theorem getMachineID_again (h : Host) (s st2 : MachState) (saveOk saveOk2 : Bool)
    (mid : Bytes) (hr : Reachable h s) (heq : GetMachineID h saveOk s = (.ok mid, st2)) :
    GetMachineID h saveOk2 st2 = (.ok mid, st2) := by
  obtain ⟨hcan, hcache⟩ := getMachineID_ok h s st2 saveOk mid hr heq
  have hne : st2.cachedMachineID ≠ [] := by
    rw [hcache, hcan]
    exact canonicalID_ne_nil h
  unfold GetMachineID
  rw [if_pos hne, hcache]

/-! ### internal/database/sqlite.go

The settings table (key VARCHAR PRIMARY KEY, value TEXT, created_at,
updated_at) is modelled as a list of rows whose keys are unique (the
primary-key invariant), timestamps as abstract Nat instants supplied for
CURRENT_TIMESTAMP. The SQL statements are modelled by their documented
SQLite semantics: INSERT .. ON CONFLICT(key) DO UPDATE updates value and
updated_at in place, SELECT .. WHERE key = ? returns the matching row,
DELETE .. WHERE key = ? removes all matching rows and reports the
affected count. -/

/-- One row of the settings table; value holds the base64 envelope. -/
structure SettingRow where
  key : Bytes
  value : Bytes
  createdAt : Nat
  updatedAt : Nat
  deriving DecidableEq

/-- The settings table. -/
abbrev SettingsTable := List SettingRow

/-- The database handle: ChaCha20-Poly1305 encryption plus the table. -/
structure DB where
  encryption : DatabaseEncryption
  settings : SettingsTable
  deriving DecidableEq

/-- INSERT INTO settings .. ON CONFLICT(key) DO UPDATE SET value,
updated_at = CURRENT_TIMESTAMP: update the value and updated_at of every
row with this key, or append a fresh row. -/
def upsertRow (tbl : SettingsTable) (key value : Bytes) (now : Nat) : SettingsTable :=
  if tbl.any fun r => decide (r.key = key) then
    tbl.map fun r => if r.key = key then { r with value := value, updatedAt := now } else r
  else tbl ++ [{ key := key, value := value, createdAt := now, updatedAt := now }]

/-- DB.GetSetting: SELECT value WHERE key = ?, then decrypt; a missing
row is "setting not found", a decrypt failure is wrapped and surfaced. -/
def DB.GetSetting (db : DB) (key : Bytes) : Except GoError Bytes :=
  match db.settings.find? fun r => decide (r.key = key) with
  | none => .error (.settingNotFound key)
  | some row =>
    match db.encryption.Decrypt row.value with
    | .error e => .error (.failedToDecryptSetting e)
    | .ok v => .ok v

/-- DB.SetSetting: encrypt the value, then upsert it under the key. -/
def DB.SetSetting (db : DB) (key value : Bytes) (rand : Nat → Nat) (now : Nat) :
    Except GoError DB :=
  match db.encryption.Encrypt value rand with
  | .error e => .error (.failedToEncryptSetting e)
  | .ok enc => .ok { db with settings := upsertRow db.settings key enc now }

/-- DB.DeleteSetting: DELETE WHERE key = ?; zero affected rows is
"setting not found". -/
def DB.DeleteSetting (db : DB) (key : Bytes) : Except GoError DB :=
  let rowsAffected := (db.settings.filter fun r => decide (r.key = key)).length
  if rowsAffected = 0 then .error (.settingNotFound key)
  else .ok { db with settings := db.settings.filter fun r => decide (¬ r.key = key) }

/-- DB.GetAllSettings: SELECT key, value; a row whose envelope fails to
decrypt logs a warning and is skipped, the rest are aggregated. -/
def DB.GetAllSettings (db : DB) : Except GoError (List (Bytes × Bytes)) :=
  .ok (db.settings.filterMap fun r =>
    match db.encryption.Decrypt r.value with
    | .error _ => none
    | .ok v => some (r.key, v))

/-- DB.SettingExists: SELECT EXISTS(SELECT 1 .. WHERE key = ?). -/
def DB.SettingExists (db : DB) (key : Bytes) : Except GoError Bool :=
  .ok (db.settings.any fun r => decide (r.key = key))

/-- The three ways a transactional body can finish. -/
inductive BodyOutcome
  | ok
  | err (e : GoError)
  | panicked (p : Nat)
  deriving DecidableEq

/-- DB.Transaction: run the body on the transaction handle (modelled as
the table snapshot the body rewrites). A body error rolls the writes
back and propagates the original error; a panic rolls back and is
re-thrown after the deferred recover; a normal return commits. -/
def DB.Transaction (db : DB) (fn : SettingsTable → SettingsTable × BodyOutcome) :
    DB × BodyOutcome :=
  let txResult := fn db.settings
  match txResult.2 with
  | .panicked p => (db, .panicked p)
  | .err e => (db, .err e)
  | .ok => ({ db with settings := txResult.1 }, .ok)

/-- The keys of a table. -/
def tableKeys (tbl : SettingsTable) : List Bytes := tbl.map fun r => r.key

/-- find? is the head of filter (helper for the SELECT model). -/
theorem find?_eq_head_filter (p : SettingRow → Bool) (l : SettingsTable) :
    l.find? p = (l.filter p).head? := by
  induction l with
  | nil => rfl
  | cons a t ih =>
    by_cases hp : p a
    · rw [List.find?_cons_of_pos _ hp, List.filter_cons_of_pos hp, List.head?_cons]
    · rw [List.find?_cons_of_neg _ (by simpa using hp), List.filter_cons_of_neg
        (by simpa using hp), ih]

/-- After an upsert, the rows carrying the key are exactly one row
holding the new value, stamped with the write time (primary-key
uniqueness assumed). -/
theorem upsert_filter (tbl : SettingsTable) (key value : Bytes) (now : Nat)
    (hnd : (tableKeys tbl).Nodup) :
    ∃ c, (upsertRow tbl key value now).filter (fun r => decide (r.key = key)) =
      [{ key := key, value := value, createdAt := c, updatedAt := now }] := by
  induction tbl with
  | nil =>
    refine ⟨now, ?_⟩
    simp [upsertRow, List.filter]
  | cons a t ih =>
    have hnd2 : (tableKeys t).Nodup := by
      simp only [tableKeys, List.map_cons, List.nodup_cons] at hnd
      exact hnd.2
    have hnotin : a.key ∉ tableKeys t := by
      simp only [tableKeys, List.map_cons, List.nodup_cons] at hnd
      exact hnd.1
    by_cases hk : a.key = key
    · -- head row holds the key: the update branch fires and rewrites it
      refine ⟨a.createdAt, ?_⟩
      have hany : (a :: t).any (fun r => decide (r.key = key)) = true := by
        simp [List.any_cons, hk]
      rw [upsertRow, if_pos hany]
      have hrest : (t.map fun r =>
          if r.key = key then { r with value := value, updatedAt := now } else r).filter
          (fun r => decide (r.key = key)) = [] := by
        rw [List.filter_eq_nil_iff]
        intro x hx
        simp only [List.mem_map] at hx
        obtain ⟨r, hr, hxr⟩ := hx
        have hrk : r.key ≠ key := by
          intro hrk
          exact hnotin (by rw [hk, ← hrk]; exact List.mem_map_of_mem _ hr)
        rw [if_neg hrk] at hxr
        simp [← hxr, hrk]
      simp only [List.map_cons, List.filter_cons, if_pos hk]
      simp [hk, hrest]
    · -- head row misses the key: it survives unchanged and is filtered out
      obtain ⟨c, hc⟩ := ih hnd2
      refine ⟨c, ?_⟩
      by_cases hany : t.any (fun r => decide (r.key = key)) = true
      · have hany2 : (a :: t).any (fun r => decide (r.key = key)) = true := by
          simp [List.any_cons, hany]
        rw [upsertRow, if_pos hany2]
        rw [upsertRow, if_pos hany] at hc
        simp only [List.map_cons, List.filter_cons, if_neg hk]
        simpa [hk] using hc
      · have hany2 : ¬ (a :: t).any (fun r => decide (r.key = key)) = true := by
          simp only [List.any_cons, Bool.or_eq_true, decide_eq_true_eq]
          push_neg
          exact ⟨hk, by simpa using hany⟩
        rw [upsertRow, if_neg hany2]
        rw [upsertRow, if_neg hany] at hc
        simp only [List.cons_append, List.filter_cons]
        simpa [hk] using hc

/-- An upsert never disturbs the primary-key uniqueness invariant. -/
theorem upsert_nodup (tbl : SettingsTable) (key value : Bytes) (now : Nat)
    (hnd : (tableKeys tbl).Nodup) : (tableKeys (upsertRow tbl key value now)).Nodup := by
  rw [upsertRow]
  by_cases hany : tbl.any (fun r => decide (r.key = key)) = true
  · rw [if_pos hany]
    have hkeys : tableKeys (tbl.map fun r =>
        if r.key = key then { r with value := value, updatedAt := now } else r)
        = tableKeys tbl := by
      simp only [tableKeys, List.map_map]
      apply List.map_congr_left
      intro r _
      by_cases hk : r.key = key
      · simp [hk]
      · simp [hk]
    rw [hkeys]
    exact hnd
  · rw [if_neg hany]
    have hnotin : key ∉ tableKeys tbl := by
      intro hmem
      apply hany
      simp only [tableKeys, List.mem_map] at hmem
      obtain ⟨r, hr, hrk⟩ := hmem
      simp only [List.any_eq_true, decide_eq_true_eq]
      exact ⟨r, hr, hrk⟩
    simp only [tableKeys, List.map_append, List.map_cons, List.map_nil]
    rw [List.nodup_append]
    refine ⟨hnd, List.nodup_singleton _, ?_⟩
    intro x hx hy
    simp only [List.mem_singleton] at hy
    subst hy
    exact hnotin hx

/-- An upsert always leaves a row carrying the key. -/
theorem upsert_mem (tbl : SettingsTable) (k v : Bytes) (now : Nat) :
    ∃ row ∈ upsertRow tbl k v now, row.key = k := by
  rw [upsertRow]
  by_cases hany : tbl.any (fun r => decide (r.key = k)) = true
  · rw [if_pos hany]
    simp only [List.any_eq_true, decide_eq_true_eq] at hany
    obtain ⟨r, hr, hrk⟩ := hany
    refine ⟨{ r with value := v, updatedAt := now }, ?_, hrk⟩
    have hmem := List.mem_map_of_mem
      (fun r => if r.key = k then { r with value := v, updatedAt := now } else r) hr
    simpa [hrk] using hmem
  · rw [if_neg hany]
    exact ⟨⟨k, v, now, now⟩, by simp, rfl⟩

/-! ### Concrete fixtures used by the witness theorems -/

/-- A one-byte machine fingerprint. -/
def mid0 : Bytes := [109]

/-- A 32-byte server key. -/
def sk0 : Bytes := List.replicate 32 7

/-- A plaintext with a NUL byte and a non-ASCII byte. -/
def pt0 : Bytes := [0, 255, 104, 105]

/-- A deterministic stand-in for the crypto/rand stream. -/
def rand0 : Nat → Nat := fun i => i + 3

/-- The config cipher NewConfigEncryption builds from mid0. -/
def ce0 : ConfigEncryption :=
  { machineID := mid0
    key := pbkdf2Key hardcodedEncryptionKey mid0 pbkdf2Iterations aes256KeySize .sha3_256 }

/-- The database cipher NewDatabaseEncryption builds from sk0. -/
def de0 : DatabaseEncryption := { serverKey := sk0 }

/-- A concrete config-domain envelope of pt0. -/
def ctC0 : Bytes := (ce0.Encrypt pt0 rand0).toOption.getD []

/-- A concrete database-domain envelope of pt0. -/
def ctD0 : Bytes := (de0.Encrypt pt0 rand0).toOption.getD []

/-- The decoded bytes of ctD0. -/
def dD0 : Bytes := (b64Decode ctD0).getD []

/-- A host whose only signal is the hostname h. -/
def host0 : Host := ⟨none, none, some [104]⟩

/-- The fresh process state. -/
def mach0 : MachState := ⟨[], none⟩

/-- The state after one successful GetMachineID on host0. -/
def mach1 : MachState := ⟨canonicalID host0, some (canonicalID host0)⟩

/-- An empty database over de0. -/
def db0 : DB := ⟨de0, []⟩

/-- A concrete settings row. -/
def row0 : SettingRow := ⟨[107], [118], 0, 0⟩

/-- A transactional body that writes row0 and then reports an error. -/
def fnErr0 : SettingsTable → SettingsTable × BodyOutcome :=
  fun t => (t ++ [row0], .err .invalidKey)

/-- A transactional body that writes row0 and then panics. -/
def fnPanic0 : SettingsTable → SettingsTable × BodyOutcome :=
  fun t => (t ++ [row0], .panicked 7)

/-- A transactional body that writes row0 and returns cleanly. -/
def fnOk0 : SettingsTable → SettingsTable × BodyOutcome :=
  fun t => (t ++ [row0], .ok)

/-- A row whose envelope decrypts (key g). -/
def rowG : SettingRow := ⟨[103], ctD0, 0, 0⟩

/-- A row whose envelope is corrupt (key b, empty envelope). -/
def rowB : SettingRow := ⟨[98], [], 0, 0⟩

/-- A database holding one decryptable and one corrupt row. -/
def db9 : DB := ⟨de0, [rowG, rowB]⟩

/-- The map db9.GetAllSettings returns. -/
def m9 : List (Bytes × Bytes) := (db9.GetAllSettings).toOption.getD []

/-- A 32-byte key for the base64 round trip. -/
def key0 : Bytes := List.replicate 32 5

/-! ### The claims -/

/-- C1: for every plaintext and every valid pair of domain keys, opening
a database-domain envelope with the config cipher and opening a
config-domain envelope with the database cipher both fail with an error
(the authentication failure of Decrypt); neither returns a plaintext. -/
theorem cross_domain_open_fails (machineID serverKey pt : Bytes) (rc rd : Nat → Nat)
    (ce : ConfigEncryption) (de : DatabaseEncryption) (ctC ctD : Bytes)
    (hce : NewConfigEncryption machineID = .ok ce)
    (hde : NewDatabaseEncryption serverKey = .ok de)
    (hwfk : WFBytes serverKey) (hwf : WFBytes pt)
    (hc : ce.Encrypt pt rc = .ok ctC) (hd : de.Encrypt pt rd = .ok ctD) :
    ce.Decrypt ctD = .error .failedToDecrypt ∧
      de.Decrypt ctC = .error .failedToDecrypt := by
  obtain ⟨hk, hwck⟩ := NewConfigEncryption_key machineID ce hce
  obtain ⟨hsk, hskl⟩ := NewDatabaseEncryption_key serverKey de hde
  have hwsk : WFBytes de.serverKey := hsk ▸ hwfk
  exact ⟨config_decrypt_cross ce de pt rd hk hskl hwsk hwf ctD hd,
    database_decrypt_cross ce de pt rc hk hwck hskl hwf ctC hc⟩

theorem cross_domain_open_fails_witness :
    ce0.Decrypt ctD0 = .error .failedToDecrypt ∧
      de0.Decrypt ctC0 = .error .failedToDecrypt :=
  cross_domain_open_fails mid0 sk0 pt0 rand0 rand0 ce0 de0 ctC0 ctD0 (by decide)
    (by decide) (by decide) (by decide) (by decide) (by decide)

/-- C2: for every byte string (empty and binary included), decrypting
what the same cipher instance encrypted returns exactly the plaintext,
independently in both domains. -/
theorem encrypt_decrypt_roundtrip (machineID serverKey pt : Bytes) (rc rd : Nat → Nat)
    (ce : ConfigEncryption) (de : DatabaseEncryption) (ctC ctD : Bytes)
    (hce : NewConfigEncryption machineID = .ok ce)
    (hde : NewDatabaseEncryption serverKey = .ok de)
    (hwfk : WFBytes serverKey) (hwf : WFBytes pt)
    (hc : ce.Encrypt pt rc = .ok ctC) (hd : de.Encrypt pt rd = .ok ctD) :
    ce.Decrypt ctC = .ok pt ∧ de.Decrypt ctD = .ok pt := by
  obtain ⟨hk, hwck⟩ := NewConfigEncryption_key machineID ce hce
  obtain ⟨hsk, hskl⟩ := NewDatabaseEncryption_key serverKey de hde
  have hwsk : WFBytes de.serverKey := hsk ▸ hwfk
  exact ⟨config_decrypt_encrypt ce pt rc hk hwck hwf ctC hc,
    database_decrypt_encrypt de pt rd hskl hwsk hwf ctD hd⟩

theorem encrypt_decrypt_roundtrip_witness :
    ce0.Decrypt ctC0 = .ok pt0 ∧ de0.Decrypt ctD0 = .ok pt0 :=
  encrypt_decrypt_roundtrip mid0 sk0 pt0 rand0 rand0 ce0 de0 ctC0 ctD0 (by decide)
    (by decide) (by decide) (by decide) (by decide) (by decide)

/-- C3: every successful GetMachineID on an unchanged host returns a
64-character hexadecimal string, and an immediate second call (cache or
persisted-store path included, since any reachable state is allowed)
returns the identical string. -/
theorem getMachineID_hex64_stable (h : Host) (s st2 : MachState) (saveOk saveOk2 : Bool)
    (mid : Bytes) (hr : Reachable h s) (heq : GetMachineID h saveOk s = (.ok mid, st2)) :
    mid.length = 64 ∧ AllHexBytes mid ∧ GetMachineID h saveOk2 st2 = (.ok mid, st2) := by
  obtain ⟨hcan, hcache⟩ := getMachineID_ok h s st2 saveOk mid hr heq
  subst hcan
  exact ⟨canonicalID_length h, canonicalID_allHex h,
    getMachineID_again h s st2 saveOk saveOk2 _ hr heq⟩

theorem getMachineID_hex64_stable_witness :
    (canonicalID host0).length = 64 ∧ AllHexBytes (canonicalID host0) ∧
      GetMachineID host0 false mach1 = (.ok (canonicalID host0), mach1) :=
  getMachineID_hex64_stable host0 mach0 mach1 true false (canonicalID host0)
    Reachable.init (by decide)

/-- C4: the config key is PBKDF2 of the fixed application secret with
the fingerprint as salt, 10000 iterations, 32-byte output, SHA3-256;
an empty fingerprint is rejected. -/
theorem config_key_derivation (machineID : Bytes) :
    (machineID = [] → NewConfigEncryption machineID = .error .emptyMachineID) ∧
      (machineID ≠ [] → NewConfigEncryption machineID =
        .ok { machineID := machineID
              key := pbkdf2Key hardcodedEncryptionKey machineID 10000 32
                HashAlg.sha3_256 }) := by
  constructor
  · intro hm
    rw [NewConfigEncryption, if_pos hm]
  · intro hm
    rw [NewConfigEncryption, if_neg hm]
    rfl

theorem config_key_derivation_witness :
    NewConfigEncryption mid0 =
      .ok { machineID := mid0
            key := pbkdf2Key hardcodedEncryptionKey mid0 10000 32 HashAlg.sha3_256 } :=
  (config_key_derivation mid0).2 (by decide)

/-- C5 counterexample: an invalid-base64 envelope and a truncated
envelope fail with two different error values under the same cipher, so
the failure is not one single indistinguishable error kind. -/
theorem decrypt_errors_distinguishable :
    ce0.Decrypt [33] = .error .failedToDecodeBase64 ∧
      ce0.Decrypt [] = .error .invalidCiphertext ∧
      GoError.failedToDecodeBase64 ≠ GoError.invalidCiphertext := by
  refine ⟨by decide, by decide, by decide⟩

/-- C5 amended: every malformed, truncated or unauthentic envelope makes
Decrypt fail with an error in both domains, but the three cases return
three distinguishable error values: a wrapped base64 error, the
ErrInvalidCiphertext sentinel, and a wrapped decryption error. -/
theorem decrypt_error_taxonomy (ce : ConfigEncryption) (de : DatabaseEncryption)
    (s : Bytes) (hck : ce.key.length = 32) (hdk : de.serverKey.length = 32) :
    (b64Decode s = none →
      ce.Decrypt s = .error .failedToDecodeBase64 ∧
        de.Decrypt s = .error .failedToDecodeBase64) ∧
    (∀ d, b64Decode s = some d → d.length < 12 →
      ce.Decrypt s = .error .invalidCiphertext ∧
        de.Decrypt s = .error .invalidCiphertext) ∧
    (∀ d, b64Decode s = some d → ¬ d.length < 12 →
      (aeadOpen .aesgcm ce.key (d.take 12) (d.drop 12) = none →
        ce.Decrypt s = .error .failedToDecrypt) ∧
      (aeadOpen .chacha20poly1305 de.serverKey (d.take 12) (d.drop 12) = none →
        de.Decrypt s = .error .failedToDecrypt)) := by
  refine ⟨?_, ?_, ?_⟩
  · intro hdec
    constructor
    · simp [ConfigEncryption.Decrypt, hdec]
    · simp [DatabaseEncryption.Decrypt, hdec]
  · intro d hdec hlt
    constructor
    · simp [ConfigEncryption.Decrypt, hdec, hck, aes256KeySize, aeadNonceSize, hlt]
    · simp [DatabaseEncryption.Decrypt, hdec, hdk, chacha20KeySize, aeadNonceSize, hlt]
  · intro d hdec hge
    constructor
    · intro hopen
      simp [ConfigEncryption.Decrypt, hdec, hck, aes256KeySize, aeadNonceSize, hge, hopen]
    · intro hopen
      simp [DatabaseEncryption.Decrypt, hdec, hdk, chacha20KeySize, aeadNonceSize, hge,
        hopen]

theorem decrypt_error_taxonomy_witness :
    (ce0.Decrypt [43] = .error .failedToDecodeBase64 ∧
      de0.Decrypt [43] = .error .failedToDecodeBase64) ∧
    (ce0.Decrypt [] = .error .invalidCiphertext ∧
      de0.Decrypt [] = .error .invalidCiphertext) ∧
    ce0.Decrypt ctD0 = .error .failedToDecrypt :=
  ⟨(decrypt_error_taxonomy ce0 de0 [43] (by decide) (by decide)).1 (by decide),
   (decrypt_error_taxonomy ce0 de0 [] (by decide) (by decide)).2.1 [] (by decide)
     (by decide),
   ((decrypt_error_taxonomy ce0 de0 ctD0 (by decide) (by decide)).2.2 dD0 (by decide)
     (by decide)).1 (by decide)⟩

/-- C6: a transactional body returning an error rolls every write back
and propagates the original error; a panicking body rolls back before
the panic propagates; an error-free body commits, leaving its writes
visible. -/
theorem transaction_semantics (db : DB) (fn : SettingsTable → SettingsTable × BodyOutcome) :
    (∀ e, (fn db.settings).2 = .err e → db.Transaction fn = (db, .err e)) ∧
    (∀ p, (fn db.settings).2 = .panicked p → db.Transaction fn = (db, .panicked p)) ∧
    ((fn db.settings).2 = .ok →
      db.Transaction fn = ({ db with settings := (fn db.settings).1 }, .ok)) := by
  refine ⟨?_, ?_, ?_⟩
  · intro e he
    simp [DB.Transaction, he]
  · intro p hp
    simp [DB.Transaction, hp]
  · intro hok
    simp [DB.Transaction, hok]

theorem transaction_semantics_witness :
    db0.Transaction fnErr0 = (db0, .err .invalidKey) ∧
      db0.Transaction fnPanic0 = (db0, .panicked 7) ∧
      db0.Transaction fnOk0 = ({ db0 with settings := [row0] }, .ok) :=
  ⟨(transaction_semantics db0 fnErr0).1 .invalidKey rfl,
   (transaction_semantics db0 fnPanic0).2.1 7 rfl,
   (transaction_semantics db0 fnOk0).2.2 rfl⟩

/-- A successful SetSetting is exactly an encrypt followed by an upsert. -/
theorem setSetting_ok (db : DB) (k v : Bytes) (r : Nat → Nat) (t : Nat) (db2 : DB)
    (h : db.SetSetting k v r t = .ok db2) :
    ∃ enc, db.encryption.Encrypt v r = .ok enc ∧
      db2 = { db with settings := upsertRow db.settings k enc t } := by
  rw [DB.SetSetting] at h
  cases henc : db.encryption.Encrypt v r with
  | error e =>
    simp only [henc] at h
    exact absurd h (by simp)
  | ok enc =>
    simp only [henc, Except.ok.injEq] at h
    exact ⟨enc, rfl, h.symm⟩

/-- Every row of the table carrying this key was written at this time. -/
def allUpdatedAt (tbl : SettingsTable) (k : Bytes) (t : Nat) : Prop :=
  ∀ r ∈ tbl, r.key = k → r.updatedAt = t

/-- The database after DELETE FROM settings WHERE key = ?. -/
def deleteResult (db : DB) (k : Bytes) : DB :=
  { db with settings := db.settings.filter fun r => decide (¬ r.key = k) }

/-- C7: set(k, v1); set(k, v2); get(k) returns v2, the table holds
exactly one row for k, and that row's updated_at is the second write's
timestamp (upsert, not append). -/
theorem set_set_get_upsert (db db1 db2 : DB) (k v1 v2 : Bytes) (r1 r2 : Nat → Nat)
    (t1 t2 : Nat) (hkey : db.encryption.serverKey.length = 32)
    (hwfk : WFBytes db.encryption.serverKey) (hwfv : WFBytes v2)
    (hnd : (tableKeys db.settings).Nodup)
    (h1 : db.SetSetting k v1 r1 t1 = .ok db1)
    (h2 : db1.SetSetting k v2 r2 t2 = .ok db2) :
    db2.GetSetting k = .ok v2 ∧
      (db2.settings.filter fun r => decide (r.key = k)).length = 1 ∧
      allUpdatedAt db2.settings k t2 := by
  obtain ⟨enc1, henc1, hdb1⟩ := setSetting_ok db k v1 r1 t1 db1 h1
  have hdb1enc : db1.encryption = db.encryption := by rw [hdb1]
  have hdb1nd : (tableKeys db1.settings).Nodup := by
    rw [hdb1]
    exact upsert_nodup _ _ _ _ hnd
  obtain ⟨enc2, henc2, hdb2⟩ := setSetting_ok db1 k v2 r2 t2 db2 h2
  have hdec2 : db1.encryption.Decrypt enc2 = .ok v2 :=
    database_decrypt_encrypt db1.encryption v2 r2 (by rw [hdb1enc]; exact hkey)
      (by rw [hdb1enc]; exact hwfk) hwfv enc2 henc2
  obtain ⟨c, hfilter⟩ := upsert_filter db1.settings k enc2 t2 hdb1nd
  have hsets : db2.settings = upsertRow db1.settings k enc2 t2 := by rw [hdb2]
  have hdb2enc : db2.encryption = db1.encryption := by rw [hdb2]
  have hfind : db2.settings.find? (fun r => decide (r.key = k)) =
      some ⟨k, enc2, c, t2⟩ := by
    rw [hsets, find?_eq_head_filter, hfilter]
    rfl
  refine ⟨?_, ?_, ?_⟩
  · simp only [DB.GetSetting, hfind, hdb2enc, hdec2]
  · rw [hsets, hfilter]
    rfl
  · intro r hr hrk
    have hmem : r ∈ db2.settings.filter (fun r => decide (r.key = k)) :=
      List.mem_filter.mpr ⟨hr, by simp [hrk]⟩
    rw [hsets, hfilter] at hmem
    simp only [List.mem_singleton] at hmem
    rw [hmem]

/-- C8: deleting an absent key fails with not-found (zero rows
affected); deleting an existing key succeeds; after set(k, v) a delete
succeeds and the following get(k) fails with not-found. -/
theorem delete_semantics (db db1 : DB) (k v : Bytes) (r : Nat → Nat) (t : Nat) :
    ((∀ row ∈ db.settings, row.key ≠ k) →
      db.DeleteSetting k = .error (.settingNotFound k)) ∧
    ((∃ row ∈ db.settings, row.key = k) →
      db.DeleteSetting k = .ok (deleteResult db k)) ∧
    (db.SetSetting k v r t = .ok db1 →
      db1.DeleteSetting k = .ok (deleteResult db1 k) ∧
        (deleteResult db1 k).GetSetting k = .error (.settingNotFound k)) := by
  have hdel : ∀ dbx : DB, (∃ row ∈ dbx.settings, row.key = k) →
      dbx.DeleteSetting k = .ok (deleteResult dbx k) := by
    intro dbx ⟨row, hrow, hrk⟩
    have hne : ((dbx.settings.filter fun r => decide (r.key = k)).length = 0) = False := by
      simp only [eq_iff_iff, iff_false]
      intro hlen
      have : row ∈ dbx.settings.filter fun r => decide (r.key = k) :=
        List.mem_filter.mpr ⟨hrow, by simp [hrk]⟩
      rw [List.length_eq_zero.mp hlen] at this
      simp at this
    simp only [DB.DeleteSetting, hne, if_false]
    rfl
  have hget : ∀ dbx : DB, (deleteResult dbx k).GetSetting k =
      .error (.settingNotFound k) := by
    intro dbx
    have hfind : (deleteResult dbx k).settings.find? (fun r => decide (r.key = k))
        = none := by
      rw [List.find?_eq_none]
      intro x hx
      have := (List.mem_filter.mp hx).2
      simp only [decide_eq_true_eq] at this ⊢
      exact this
    simp only [DB.GetSetting, hfind]
  refine ⟨?_, hdel db, ?_⟩
  · intro habs
    have hzero : (db.settings.filter fun r => decide (r.key = k)).length = 0 := by
      rw [List.length_eq_zero, List.filter_eq_nil_iff]
      intro x hx
      simp only [decide_eq_true_eq]
      exact habs x hx
    simp only [DB.DeleteSetting, hzero, if_pos]
  · intro h1
    obtain ⟨enc1, henc1, hdb1⟩ := setSetting_ok db k v r t db1 h1
    refine ⟨hdel db1 ?_, hget db1⟩
    rw [hdb1]
    exact upsert_mem db.settings k enc1 t

/-- The settings key used by the store witnesses. -/
def kW : Bytes := [107]

/-- First value written. -/
def v1W : Bytes := [97]

/-- Second value written. -/
def v2W : Bytes := [98, 99]

/-- State after set(kW, v1W). -/
def db1W : DB := (db0.SetSetting kW v1W rand0 1).toOption.getD db0

/-- State after set(kW, v1W); set(kW, v2W). -/
def db2W : DB := (db1W.SetSetting kW v2W rand0 2).toOption.getD db0

theorem set_set_get_upsert_witness :
    db2W.GetSetting kW = .ok v2W ∧
      (db2W.settings.filter fun r => decide (r.key = kW)).length = 1 ∧
      allUpdatedAt db2W.settings kW 2 :=
  set_set_get_upsert db0 db1W db2W kW v1W v2W rand0 rand0 1 2 (by decide) (by decide)
    (by decide) (by decide) (by decide) (by decide)

theorem delete_semantics_witness :
    db0.DeleteSetting kW = .error (.settingNotFound kW) ∧
      db9.DeleteSetting [103] = .ok (deleteResult db9 [103]) ∧
      db1W.DeleteSetting kW = .ok (deleteResult db1W kW) ∧
      (deleteResult db1W kW).GetSetting kW = .error (.settingNotFound kW) :=
  ⟨(delete_semantics db0 db0 kW v1W rand0 1).1 (by decide),
   (delete_semantics db9 db0 [103] v1W rand0 1).2.1 (by decide),
   (delete_semantics db0 db1W kW v1W rand0 1).2.2 (by decide)⟩

/-- C9: the bulk read never fails on a row whose envelope does not
decrypt: every decryptable row appears in the returned map, every
undecryptable row is skipped without aborting the call, while the
single-row GetSetting (the only other decrypting operation) surfaces the
decrypt error instead of suppressing it. -/
theorem get_all_settings_skips_bad_rows (db : DB) (m : List (Bytes × Bytes))
    (hnd : (tableKeys db.settings).Nodup)
    (hm : db.GetAllSettings = .ok m) :
    (∀ row ∈ db.settings, ∀ v, db.encryption.Decrypt row.value = .ok v →
      (row.key, v) ∈ m) ∧
    (∀ row ∈ db.settings, ∀ e, db.encryption.Decrypt row.value = .error e →
      row.key ∉ m.map Prod.fst) ∧
    (∀ k row, db.settings.find? (fun r => decide (r.key = k)) = some row →
      ∀ e, db.encryption.Decrypt row.value = .error e →
      db.GetSetting k = .error (.failedToDecryptSetting e)) := by
  have hmval : m = db.settings.filterMap fun r =>
      match db.encryption.Decrypt r.value with
      | .error _ => none
      | .ok v => some (r.key, v) := by
    simp only [DB.GetAllSettings, Except.ok.injEq] at hm
    exact hm.symm
  refine ⟨?_, ?_, ?_⟩
  · intro row hrow v hv
    rw [hmval]
    rw [List.mem_filterMap]
    exact ⟨row, hrow, by simp only [hv]⟩
  · intro row hrow e he hmem
    rw [hmval] at hmem
    simp only [List.mem_map, List.mem_filterMap] at hmem
    obtain ⟨⟨k2, v2⟩, ⟨row2, hrow2, hf⟩, hfst⟩ := hmem
    cases hdec2 : db.encryption.Decrypt row2.value with
    | error e2 =>
      simp only [hdec2] at hf
      exact absurd hf (by simp)
    | ok v3 =>
      simp only [hdec2, Option.some.injEq, Prod.mk.injEq] at hf
      have hkeys : row2.key = row.key := by
        rw [hf.1]
        exact hfst
      have hnd2 : (db.settings.map fun r => r.key).Nodup := hnd
      have hrowseq : row2 = row :=
        List.inj_on_of_nodup_map hnd2 hrow2 hrow hkeys
      rw [hrowseq, he] at hdec2
      exact absurd hdec2 (by simp)
  · intro k row hfind e he
    simp only [DB.GetSetting, hfind, he]

theorem get_all_settings_skips_bad_rows_witness :
    (rowG.key, pt0) ∈ m9 ∧
      rowB.key ∉ m9.map Prod.fst ∧
      db9.GetSetting [98] = .error (.failedToDecryptSetting .invalidCiphertext) :=
  ⟨(get_all_settings_skips_bad_rows db9 m9 (by decide) (by decide)).1 rowG (by decide) pt0
     (by decide),
   (get_all_settings_skips_bad_rows db9 m9 (by decide) (by decide)).2.1 rowB (by decide)
     .invalidCiphertext (by decide),
   (get_all_settings_skips_bad_rows db9 m9 (by decide) (by decide)).2.2 [98] rowB (by decide)
     .invalidCiphertext (by decide)⟩

/-- C10: decoding the base64 text of any 32-byte key returns exactly the
key, and any base64 text whose decoded length is not 32 is rejected with
an error. -/
theorem server_key_base64_roundtrip (key s d : Bytes) :
    (key.length = 32 → WFBytes key →
      ServerKeyFromBase64 (ServerKeyToBase64 key) = .ok key) ∧
    (b64Decode s = some d → d.length ≠ 32 →
      ServerKeyFromBase64 s = .error (.invalidServerKeyLength d.length)) := by
  constructor
  · intro hl hwf
    simp only [ServerKeyToBase64, ServerKeyFromBase64, b64Decode_b64Encode key hwf]
    rw [if_neg (by rw [hl]; simp [chacha20KeySize])]
  · intro hdec hne
    simp only [ServerKeyFromBase64, hdec]
    rw [if_pos (by simpa [chacha20KeySize] using hne)]

theorem server_key_base64_roundtrip_witness :
    ServerKeyFromBase64 (ServerKeyToBase64 key0) = .ok key0 ∧
      ServerKeyFromBase64 [65, 65, 61, 61] = .error (.invalidServerKeyLength 1) :=
  ⟨(server_key_base64_roundtrip key0 [] []).1 (by decide) (by decide),
   (server_key_base64_roundtrip [] [65, 65, 61, 61] [0]).2 (by decide) (by decide)⟩
